import Mathlib

/-!
Verification of the GitHubStars planner/fetcher core (src/main.py).

The planner (make_plan, lines 34-84) adaptively partitions the integer
star-score space into closed intervals whose search queries stay near the
1000-result API cap.  The fetcher (fetch, lines 111-158) retrieves each
interval, stitching an ascending and a descending window when the interval
count exceeds the cap.

The remote search capability is modelled by a fixed score-distribution
table d : Int -> Nat (d s = number of repositories with exactly s stars);
a count query over stars:lo..hi is the sum of d over the closed interval.
-/

namespace GitHubStars

/-- QUERY_LIMIT from src/main.py line 13: GitHub API search results limit. -/
def QUERY_LIMIT : ℕ := 1000

/-- THRESHOLD from src/main.py line 14: 1 <<20, the stop probe limit. -/
def THRESHOLD : ℕ := 2 ^ 20

/-- Result count of the search query stars:lo..hi against the fixed
score-distribution table d: the number of items whose score lies in the
closed interval [lo, hi]. -/
def count (d : ℤ → ℕ) (lo hi : ℤ) : ℕ :=
  ∑ s in Finset.Icc lo hi, d s

/-- The planner's mutable probe state in make_plan (src/main.py lines 51-54):
start, offset, the multiplier m, and the plan accumulated so far. -/
structure PlannerState where
  start : ℤ
  offset : ℕ
  m : ℕ
  plan : List (ℤ × ℤ)
deriving DecidableEq, Repr

/-- One iteration of the while-loop body of make_plan (src/main.py
lines 57-82), minus the transient-failure retries (which leave the state
unchanged).  Returns none when the loop breaks (line 69-70), otherwise the
state after the iteration:
growth (lines 71-73): offset += m; m *= 2;
skip (lines 74-76): start += 1;
commit (lines 77-82): step = offset - m // 2, append (start, start + step),
m = max 1 (m // 2), start += step + 1.  The commit branch does not touch
offset: after initialization at line 52, offset is written only by the
growth phase at line 72, so a commit carries the accumulated offset over to
the next start position. -/
def planStep (d : ℤ → ℕ) (st : PlannerState) : Option PlannerState :=
  if THRESHOLD ≤ st.m ∧ count d st.start (st.start + st.offset) = 0 then
    none
  else if st.m < THRESHOLD ∧ count d st.start (st.start + st.offset) < QUERY_LIMIT then
    some ⟨st.start, st.offset + st.m, st.m * 2, st.plan⟩
  else if 2 * QUERY_LIMIT < count d st.start (st.start + st.offset) ∧ st.offset = 0 then
    some ⟨st.start + 1, st.offset, st.m, st.plan⟩
  else
    some ⟨st.start + ((st.offset : ℤ) - (st.m / 2 : ℕ)) + 1, st.offset, max 1 (st.m / 2),
          st.plan ++ [(st.start, st.start + ((st.offset : ℤ) - (st.m / 2 : ℕ)))]⟩

/-- Fuel-bounded iteration of the make_plan loop; none means the loop has
not terminated within fuel iterations. -/
def makePlanAux (d : ℤ → ℕ) : ℕ → PlannerState → Option (List (ℤ × ℤ))
  | 0, _ => none
  | fuel + 1, st =>
    match planStep d st with
    | none => some st.plan
    | some st' => makePlanAux d fuel st'

/-- make_plan (src/main.py lines 34-84) from a given start index, with the
loop bounded by fuel.  A some result is a plan actually returned by the
source loop. -/
def make_plan (d : ℤ → ℕ) (start : ℤ) (fuel : ℕ) : Option (List (ℤ × ℤ)) :=
  makePlanAux d fuel ⟨start, 0, 1, []⟩

theorem makePlanAux_succ (d : ℤ → ℕ) (fuel : ℕ) (st : PlannerState) :
    makePlanAux d (fuel + 1) st =
      match planStep d st with
      | none => some st.plan
      | some st' => makePlanAux d fuel st' := rfl

/-- Any property preserved by every loop iteration holds, together with the
break condition, at the final state of a terminating make_plan loop. -/
theorem makePlanAux_reaches_break (d : ℤ → ℕ) (P : PlannerState → Prop)
    (hstep : ∀ st st', P st → planStep d st = some st' → P st') :
    ∀ (fuel : ℕ) (st : PlannerState) (p : List (ℤ × ℤ)), P st →
      makePlanAux d fuel st = some p →
      ∃ stf, P stf ∧ planStep d stf = none ∧ p = stf.plan := by
  intro fuel
  induction fuel with
  | zero => intro st p _ h; exact absurd h (by simp [makePlanAux])
  | succ n ih =>
    intro st p hP h
    rw [makePlanAux_succ] at h
    cases hps : planStep d st with
    | none =>
      rw [hps] at h
      exact ⟨st, hP, hps, (Option.some.inj h).symm⟩
    | some st' =>
      rw [hps] at h
      exact ih st' p (hstep st st' hP hps) h

/-- Extra fuel does not change the plan produced by a terminating loop. -/
theorem makePlanAux_mono (d : ℤ → ℕ) :
    ∀ (fuel fuel' : ℕ) (st : PlannerState) (p : List (ℤ × ℤ)),
      makePlanAux d fuel st = some p → fuel ≤ fuel' →
      makePlanAux d fuel' st = some p := by
  intro fuel
  induction fuel with
  | zero => intro fuel' st p h _; exact absurd h (by simp [makePlanAux])
  | succ n ih =>
    intro fuel' st p h hle
    obtain ⟨k, rfl⟩ : ∃ k, fuel' = k + 1 := ⟨fuel' - 1, by omega⟩
    rw [makePlanAux_succ] at h ⊢
    cases hps : planStep d st with
    | none => rw [hps] at h; exact h
    | some st' => rw [hps] at h; exact ih k st' p h (by omega)

/-- If every count above the current start is zero, the loop performs pure
growth iterations (multiplier doubling each time) until the multiplier
reaches THRESHOLD, then breaks with the plan unchanged. -/
theorem makePlanAux_zero_tail (d : ℤ → ℕ) :
    ∀ (n : ℕ) (st : PlannerState), (∀ hi, count d st.start hi = 0) →
      THRESHOLD ≤ st.m * 2 ^ n →
      ∀ fuel, n < fuel → makePlanAux d fuel st = some st.plan := by
  intro n
  induction n with
  | zero =>
    intro st hz hm fuel hf
    obtain ⟨k, rfl⟩ : ∃ k, fuel = k + 1 := ⟨fuel - 1, by omega⟩
    rw [makePlanAux_succ]
    have hbreak : planStep d st = none := by
      rw [planStep, if_pos ⟨by simpa using hm, hz _⟩]
    rw [hbreak]
  | succ n ih =>
    intro st hz hm fuel hf
    obtain ⟨k, rfl⟩ : ∃ k, fuel = k + 1 := ⟨fuel - 1, by omega⟩
    rw [makePlanAux_succ]
    by_cases hth : THRESHOLD ≤ st.m
    · have hbreak : planStep d st = none := by
        rw [planStep, if_pos ⟨hth, hz _⟩]
      rw [hbreak]
    · have hgrow : planStep d st = some ⟨st.start, st.offset + st.m, st.m * 2, st.plan⟩ := by
        rw [planStep, if_neg (fun hc => hth hc.1),
          if_pos ⟨by omega, by rw [hz]; norm_num [QUERY_LIMIT]⟩]
      rw [hgrow]
      exact ih ⟨st.start, st.offset + st.m, st.m * 2, st.plan⟩ hz
        (by
          show THRESHOLD ≤ st.m * 2 * 2 ^ n
          calc THRESHOLD ≤ st.m * 2 ^ (n + 1) := hm
            _ = st.m * 2 * 2 ^ n := by ring)
        k (by omega)

/-- Loop invariant for interval ordering: the multiplier's half never
exceeds the accumulated offset (initially 1 / 2 = 0 ≤ 0; growth sets
offset + m ≥ m = 2 * m / 2; a commit keeps offset while halving m), the
committed intervals form a chain in which each interval's low exceeds the
previous interval's high, the last committed high lies strictly below the
current start, and every committed interval has low ≤ high (its commit's
step = offset - m / 2 was nonnegative by the first component). -/
def Inv2 (st : PlannerState) : Prop :=
  st.m / 2 ≤ st.offset ∧
  List.Chain' (fun p q : ℤ × ℤ => p.2 < q.1) st.plan ∧
  (∀ p ∈ st.plan.getLast?, p.2 < st.start) ∧
  ∀ p ∈ st.plan, p.1 ≤ p.2

theorem Inv2_step (d : ℤ → ℕ) (st st' : PlannerState) (hP : Inv2 st)
    (h : planStep d st = some st') : Inv2 st' := by
  obtain ⟨hdiv, hchain, hlast, hlh⟩ := hP
  rw [planStep] at h
  by_cases h1 : THRESHOLD ≤ st.m ∧ count d st.start (st.start + st.offset) = 0
  · rw [if_pos h1] at h
    exact Option.noConfusion h
  rw [if_neg h1] at h
  by_cases h2 : st.m < THRESHOLD ∧ count d st.start (st.start + st.offset) < QUERY_LIMIT
  · -- growth phase
    rw [if_pos h2] at h
    obtain rfl := Option.some.inj h
    refine ⟨?_, hchain, hlast, hlh⟩
    show st.m * 2 / 2 ≤ st.offset + st.m
    omega
  rw [if_neg h2] at h
  by_cases h3 : 2 * QUERY_LIMIT < count d st.start (st.start + st.offset) ∧ st.offset = 0
  · -- unsplittable-singleton skip
    rw [if_pos h3] at h
    obtain rfl := Option.some.inj h
    exact ⟨hdiv, hchain,
      fun p hp => lt_trans (hlast p hp) (by show st.start < st.start + 1; omega), hlh⟩
  · -- overshoot / commit phase
    rw [if_neg h3] at h
    obtain rfl := Option.some.inj h
    refine ⟨?_, ?_, ?_, ?_⟩
    · show max 1 (st.m / 2) / 2 ≤ st.offset
      rcases Nat.eq_zero_or_pos (st.m / 2) with hz | hpos
      · rw [hz]
        exact Nat.zero_le _
      · rw [Nat.max_eq_right hpos]
        exact le_trans (Nat.div_le_self _ 2) hdiv
    · show List.Chain' (fun p q : ℤ × ℤ => p.2 < q.1)
        (st.plan ++ [(st.start, st.start + ((st.offset : ℤ) - ((st.m / 2 : ℕ) : ℤ)))])
      rw [List.chain'_append]
      refine ⟨hchain, List.chain'_singleton _, ?_⟩
      intro x hx y hy
      rw [List.head?_cons, Option.mem_def, Option.some.injEq] at hy
      subst hy
      exact hlast x hx
    · intro p hp
      show p.2 < st.start + ((st.offset : ℤ) - ((st.m / 2 : ℕ) : ℤ)) + 1
      have hlast' : (st.plan ++
          [(st.start, st.start + ((st.offset : ℤ) - ((st.m / 2 : ℕ) : ℤ)))]).getLast? =
          some (st.start, st.start + ((st.offset : ℤ) - ((st.m / 2 : ℕ) : ℤ))) := by
        simp
      rw [hlast', Option.mem_def, Option.some.injEq] at hp
      subst hp
      omega
    · intro p hp
      rw [List.mem_append] at hp
      rcases hp with hp | hp
      · exact hlh p hp
      · rw [List.mem_singleton] at hp
        subst hp
        show st.start ≤ st.start + ((st.offset : ℤ) - ((st.m / 2 : ℕ) : ℤ))
        omega

/-- C2: for every Plan returned by make_plan, the intervals appear in
strictly increasing, non-overlapping order — each interval's low is strictly
greater than the previous interval's high — and every interval satisfies
low ≤ high. -/
theorem make_plan_intervals_ordered (d : ℤ → ℕ) (start : ℤ) (fuel : ℕ)
    (plan : List (ℤ × ℤ)) (h : make_plan d start fuel = some plan) :
    List.Chain' (fun p q : ℤ × ℤ => p.2 < q.1) plan ∧ ∀ p ∈ plan, p.1 ≤ p.2 := by
  have hinit : Inv2 ⟨start, 0, 1, []⟩ :=
    ⟨by show (1 : ℕ) / 2 ≤ 0; decide, List.chain'_nil, by simp, by simp⟩
  obtain ⟨stf, hPf, _, rfl⟩ :=
    makePlanAux_reaches_break d Inv2 (Inv2_step d) fuel _ plan hinit h
  exact ⟨hPf.2.1, hPf.2.2.2⟩

/-- Score-distribution table with 1500 items at score 52 and none elsewhere.
From start 50 it drives the planner through two growths into a commit at
the state start 50, offset 3, m 4. -/
def d1 : ℤ → ℕ := fun s => if s = 52 then 1500 else 0

/-- Score-distribution table with 250 items at each of the scores 50, 51
and 52 and 1000000 items at score 53.  Against it the planner's stale
offset, carried over a commit, makes the next commit emit an interval whose
true count far exceeds 2 * QUERY_LIMIT. -/
def dStale : ℤ → ℕ :=
  fun s => if s = 53 then 1000000 else if 50 ≤ s ∧ s ≤ 52 then 250 else 0

theorem dStale_tail_zero : ∀ hi, count dStale 55 hi = 0 := by
  intro hi
  simp only [count]
  refine Finset.sum_eq_zero ?_
  intro s hs
  rw [Finset.mem_Icc] at hs
  have h53 : ¬ s = 53 := by omega
  have h52 : ¬ (50 ≤ s ∧ s ≤ 52) := by omega
  simp [dStale, h53, h52]

/-- Full evaluation of make_plan against dStale from start 50: the probes
50..50 (250) and 50..51 (500) grow to offset 3, m 4; the probe 50..53
(1000750) commits (50, 51) with step = 3 - 2 = 1, leaving offset 3 in place;
at start 52 the probe 52..55 (1000250) at the stale offset is neither a
growth nor a skip, so the planner immediately commits (52, 54) with
step = 3 - 1 = 2 without ever probing a narrower window at 52; afterwards
every count above start 55 is zero and the loop grows to the break. -/
theorem run_dStale : make_plan dStale 50 25 = some [(50, 51), (52, 54)] := by
  have s0 : planStep dStale ⟨50, 0, 1, []⟩ = some ⟨50, 1, 2, []⟩ := by decide
  have s1 : planStep dStale ⟨50, 1, 2, []⟩ = some ⟨50, 3, 4, []⟩ := by decide
  have s2 : planStep dStale ⟨50, 3, 4, []⟩ = some ⟨52, 3, 2, [(50, 51)]⟩ := by decide
  have s3 : planStep dStale ⟨52, 3, 2, [(50, 51)]⟩ =
      some ⟨55, 3, 1, [(50, 51), (52, 54)]⟩ := by decide
  have e0 : makePlanAux dStale 25 ⟨50, 0, 1, []⟩ = makePlanAux dStale 24 ⟨50, 1, 2, []⟩ := by
    rw [show (25 : ℕ) = 24 + 1 from rfl, makePlanAux_succ, s0]
  have e1 : makePlanAux dStale 24 ⟨50, 1, 2, []⟩ = makePlanAux dStale 23 ⟨50, 3, 4, []⟩ := by
    rw [show (24 : ℕ) = 23 + 1 from rfl, makePlanAux_succ, s1]
  have e2 : makePlanAux dStale 23 ⟨50, 3, 4, []⟩ =
      makePlanAux dStale 22 ⟨52, 3, 2, [(50, 51)]⟩ := by
    rw [show (23 : ℕ) = 22 + 1 from rfl, makePlanAux_succ, s2]
  have e3 : makePlanAux dStale 22 ⟨52, 3, 2, [(50, 51)]⟩ =
      makePlanAux dStale 21 ⟨55, 3, 1, [(50, 51), (52, 54)]⟩ := by
    rw [show (22 : ℕ) = 21 + 1 from rfl, makePlanAux_succ, s3]
  have etail : makePlanAux dStale 21 ⟨55, 3, 1, [(50, 51), (52, 54)]⟩ =
      some [(50, 51), (52, 54)] :=
    makePlanAux_zero_tail dStale 20 ⟨55, 3, 1, [(50, 51), (52, 54)]⟩
      dStale_tail_zero (by norm_num [THRESHOLD]) 21 (by omega)
  show makePlanAux dStale 25 ⟨50, 0, 1, []⟩ = some [(50, 51), (52, 54)]
  rw [e0, e1, e2, e3, etail]

/-- C1: the code violates the claim.  Against dStale from start 50,
make_plan returns a plan containing the interval (52, 54), whose true count
against the same table is 1000250 > 2 * QUERY_LIMIT: the commit at start 50
left offset = 3 in place (lines 77-82 never reset it), so the commit at
start 52 reused the stale offset and emitted a window it never probed below
the cap — breaking the contract that fetch's own assert at line 144
(totalCount ≤ 2 * QUERY_LIMIT) expects of every planned interval. -/
theorem make_plan_interval_over_two_cap :
    make_plan dStale 50 25 = some [(50, 51), (52, 54)] ∧
    ((52 : ℤ), (54 : ℤ)) ∈ [((50 : ℤ), (51 : ℤ)), (52, 54)] ∧
    count dStale 52 54 = 1000250 ∧
    ¬ (count dStale 52 54 ≤ 2 * QUERY_LIMIT) :=
  ⟨run_dStale, by decide, by decide, by decide⟩

/-- Witness for C2 at the concrete table dStale: the returned plan is
strictly increasing and every interval has low ≤ high. -/
theorem make_plan_intervals_ordered_witness :
    make_plan dStale 50 25 = some [(50, 51), (52, 54)] ∧
    (List.Chain' (fun p q : ℤ × ℤ => p.2 < q.1) [(50, 51), (52, 54)] ∧
      ∀ p ∈ [((50 : ℤ), (51 : ℤ)), (52, 54)], p.1 ≤ p.2) :=
  ⟨run_dStale, make_plan_intervals_ordered dStale 50 25 _ run_dStale⟩

/-- C5 (the code's actual commit phase): when the loop has not broken, the
probe count is no longer below QUERY_LIMIT with the window still growable,
and the unsplittable-singleton case does not apply, the planner computes
step = offset - m / 2, appends (start, start + step) to the plan, sets
m to max 1 (m / 2) and advances start to start + step + 1 — but it does NOT
reset offset: lines 77-82 leave offset exactly as it was, the reset to 0
existing only in the spec's description of this phase. -/
theorem planStep_commit (d : ℤ → ℕ) (st : PlannerState)
    (h1 : ¬ (THRESHOLD ≤ st.m ∧ count d st.start (st.start + st.offset) = 0))
    (h2 : ¬ (st.m < THRESHOLD ∧ count d st.start (st.start + st.offset) < QUERY_LIMIT))
    (h3 : ¬ (2 * QUERY_LIMIT < count d st.start (st.start + st.offset) ∧ st.offset = 0)) :
    planStep d st =
      some ⟨st.start + ((st.offset : ℤ) - ((st.m / 2 : ℕ) : ℤ)) + 1, st.offset,
        max 1 (st.m / 2),
        st.plan ++ [(st.start, st.start + ((st.offset : ℤ) - ((st.m / 2 : ℕ) : ℤ)))]⟩ := by
  rw [planStep, if_neg h1, if_neg h2, if_neg h3]

/-- Witness for C5 at the commit reached against d1 from start 50: at the
state start 50, offset 3, m 4 the probe 50..53 answers 1500 and the commit
produces start 52, m 2, plan [(50, 51)] with offset still 3 — nonzero, so
in particular the next probe runs with the stale offset. -/
theorem planStep_commit_witness :
    ¬ (THRESHOLD ≤ (4 : ℕ) ∧ count d1 (50 : ℤ) (50 + ((3 : ℕ) : ℤ)) = 0) ∧
    ¬ ((4 : ℕ) < THRESHOLD ∧ count d1 (50 : ℤ) (50 + ((3 : ℕ) : ℤ)) < QUERY_LIMIT) ∧
    ¬ (2 * QUERY_LIMIT < count d1 (50 : ℤ) (50 + ((3 : ℕ) : ℤ)) ∧ (3 : ℕ) = 0) ∧
    planStep d1 ⟨50, 3, 4, []⟩ = some ⟨52, 3, 2, [(50, 51)]⟩ ∧
    (3 : ℕ) ≠ 0 :=
  ⟨by decide, by decide, by decide,
    planStep_commit d1 ⟨50, 3, 4, []⟩ (by decide) (by decide) (by decide), by decide⟩

theorem count_zero_table : ∀ lo hi : ℤ, count (fun _ => 0) lo hi = 0 := by
  intro lo hi
  simp [count]

/-- C9: if the count capability answers 0 for every probed window, make_plan
terminates — the probe width grows, the multiplier doubling each iteration,
until the multiplier reaches THRESHOLD, at which point the zero count
triggers the stop condition after 21 probes — and the returned plan is
empty. -/
theorem make_plan_zero_capability (d : ℤ → ℕ) (h : ∀ lo hi, count d lo hi = 0)
    (start : ℤ) (fuel : ℕ) (hf : 21 ≤ fuel) : make_plan d start fuel = some [] := by
  show makePlanAux d fuel ⟨start, 0, 1, []⟩ = some []
  exact makePlanAux_zero_tail d 20 ⟨start, 0, 1, []⟩ (fun hi => h start hi)
    (by norm_num [THRESHOLD]) fuel (by omega)

/-- Witness for C9: the all-zero table from start 50 with exactly 21 probes. -/
theorem make_plan_zero_capability_witness :
    (∀ lo hi : ℤ, count (fun _ => 0) lo hi = 0) ∧ (21 : ℕ) ≤ 21 ∧
    make_plan (fun _ => 0) 50 21 = some [] :=
  ⟨count_zero_table, le_refl 21,
    make_plan_zero_capability (fun _ => 0) count_zero_table 50 21 (le_refl 21)⟩

/-- make_plan's probe loop including the transient-failure retries
(src/main.py lines 58-68): sched t = true means the t-th search_repositories
call raises a rate-limit or transient error; the handlers sleep and continue
with the planner state unchanged, so a failed attempt consumes an attempt
but performs no planStep. -/
def makePlanRetryAux (d : ℤ → ℕ) (sched : ℕ → Bool) :
    ℕ → ℕ → PlannerState → Option (List (ℤ × ℤ))
  | 0, _, _ => none
  | fuel + 1, t, st =>
    if sched t then makePlanRetryAux d sched fuel (t + 1) st
    else
      match planStep d st with
      | none => some st.plan
      | some st' => makePlanRetryAux d sched fuel (t + 1) st'

def make_plan_retry (d : ℤ → ℕ) (sched : ℕ → Bool) (start : ℤ) (fuel : ℕ) :
    Option (List (ℤ × ℤ)) :=
  makePlanRetryAux d sched fuel 0 ⟨start, 0, 1, []⟩

theorem makePlanRetryAux_succ (d : ℤ → ℕ) (sched : ℕ → Bool) (fuel t : ℕ)
    (st : PlannerState) :
    makePlanRetryAux d sched (fuel + 1) t st =
      if sched t then makePlanRetryAux d sched fuel (t + 1) st
      else
        match planStep d st with
        | none => some st.plan
        | some st' => makePlanRetryAux d sched fuel (t + 1) st' := rfl

/-- A terminating run with transient failures produces the same plan as some
failure-free run from the same state. -/
theorem makePlanRetryAux_pure (d : ℤ → ℕ) (sched : ℕ → Bool) :
    ∀ (fuel t : ℕ) (st : PlannerState) (p : List (ℤ × ℤ)),
      makePlanRetryAux d sched fuel t st = some p →
      ∃ f, makePlanAux d f st = some p := by
  intro fuel
  induction fuel with
  | zero => intro t st p h; exact absurd h (by simp [makePlanRetryAux])
  | succ n ih =>
    intro t st p h
    rw [makePlanRetryAux_succ] at h
    by_cases hs : sched t
    · rw [if_pos hs] at h
      exact ih (t + 1) st p h
    · rw [if_neg hs] at h
      cases hps : planStep d st with
      | none =>
        rw [hps] at h
        exact ⟨1, by rw [makePlanAux_succ, hps]; exact h⟩
      | some st' =>
        rw [hps] at h
        obtain ⟨f, hf⟩ := ih (t + 1) st' p h
        exact ⟨f + 1, by rw [makePlanAux_succ, hps]; exact hf⟩

/-- C8: two terminating runs of make_plan from the same start value against
the same deterministic count capability yield identical plans, whatever
transient-failure schedules the two runs encounter. -/
theorem make_plan_deterministic (d : ℤ → ℕ) (sched₁ sched₂ : ℕ → Bool) (start : ℤ)
    (fuel₁ fuel₂ : ℕ) (p₁ p₂ : List (ℤ × ℤ))
    (h₁ : make_plan_retry d sched₁ start fuel₁ = some p₁)
    (h₂ : make_plan_retry d sched₂ start fuel₂ = some p₂) : p₁ = p₂ := by
  obtain ⟨f₁, hf₁⟩ := makePlanRetryAux_pure d sched₁ fuel₁ 0 _ p₁ h₁
  obtain ⟨f₂, hf₂⟩ := makePlanRetryAux_pure d sched₂ fuel₂ 0 _ p₂ h₂
  rcases le_total f₁ f₂ with hle | hle
  · have := makePlanAux_mono d f₁ f₂ _ p₁ hf₁ hle
    rw [this] at hf₂
    exact Option.some.inj hf₂
  · have := makePlanAux_mono d f₂ f₁ _ p₂ hf₂ hle
    rw [this] at hf₁
    exact (Option.some.inj hf₁).symm

theorem makePlanRetryAux_no_failures (d : ℤ → ℕ) :
    ∀ (fuel t : ℕ) (st : PlannerState),
      makePlanRetryAux d (fun _ => false) fuel t st = makePlanAux d fuel st := by
  intro fuel
  induction fuel with
  | zero => intro t st; rfl
  | succ n ih =>
    intro t st
    rw [makePlanRetryAux_succ, if_neg (by simp), makePlanAux_succ]
    cases hps : planStep d st with
    | none => rfl
    | some st' => exact ih (t + 1) st'

/-- Witness for C8: two failure-free runs against the all-zero table. -/
theorem make_plan_deterministic_witness :
    make_plan_retry (fun _ => 0) (fun _ => false) 50 21 = some [] ∧
    ([] : List (ℤ × ℤ)) = [] := by
  have hrun : make_plan_retry (fun _ => 0) (fun _ => false) 50 21 = some [] := by
    show makePlanRetryAux (fun _ => 0) (fun _ => false) 21 0 ⟨50, 0, 1, []⟩ = some []
    rw [makePlanRetryAux_no_failures]
    exact makePlanAux_zero_tail (fun _ => 0) 20 ⟨50, 0, 1, []⟩
      (fun hi => count_zero_table 50 hi) (by norm_num [THRESHOLD]) 21 (by omega)
  exact ⟨hrun,
    make_plan_deterministic (fun _ => 0) (fun _ => false) (fun _ => false) 50 21 21 [] []
      hrun hrun⟩

/-- The fields of the PyGitHub client object that make_plan touches or could
touch: per_page (mutated at lines 55-56 and restored at line 83) and the
remaining configuration, represented by a second field it never touches. -/
structure Client where
  per_page : ℕ
  timeout : ℕ
deriving DecidableEq, Repr

/-- make_plan including its effect on the API client (src/main.py lines 55,
56 and 83): the current per_page is saved, per_page is set to 1 for the
count probes, and the saved value is written back just before returning. -/
def make_plan_client (c : Client) (d : ℤ → ℕ) (start : ℤ) (fuel : ℕ) :
    Option (Client × List (ℤ × ℤ)) :=
  match makePlanAux d fuel ⟨start, 0, 1, []⟩ with
  | none => none
  | some plan => some ({ { c with per_page := 1 } with per_page := c.per_page }, plan)

/-- C10: for every call to make_plan that returns, the client's per_page
after the call equals its value before the call, and no other field of the
client is modified by planning. -/
theorem make_plan_client_frame (c : Client) (d : ℤ → ℕ) (start : ℤ) (fuel : ℕ)
    (c' : Client) (plan : List (ℤ × ℤ))
    (h : make_plan_client c d start fuel = some (c', plan)) :
    c' = c ∧ c'.per_page = c.per_page := by
  rw [make_plan_client] at h
  cases hm : makePlanAux d fuel ⟨start, 0, 1, []⟩ with
  | none => rw [hm] at h; exact Option.noConfusion h
  | some pl =>
    rw [hm] at h
    have h2 := Option.some.inj h
    have h3 := congrArg Prod.fst h2
    have hc : c' = c := h3.symm
    exact ⟨hc, by rw [hc]⟩

/-- Witness for C10: a client with per_page 100 against the all-zero table;
planning returns it unchanged. -/
theorem make_plan_client_frame_witness :
    make_plan_client ⟨100, 7⟩ (fun _ => 0) 50 21 = some (⟨100, 7⟩, []) ∧
    (⟨100, 7⟩ : Client) = ⟨100, 7⟩ := by
  have hrun : makePlanAux (fun _ => 0) 21 ⟨50, 0, 1, []⟩ = some [] :=
    makePlanAux_zero_tail (fun _ => 0) 20 ⟨50, 0, 1, []⟩
      (fun hi => count_zero_table 50 hi) (by norm_num [THRESHOLD]) 21 (by omega)
  have h : make_plan_client ⟨100, 7⟩ (fun _ => 0) 50 21 = some (⟨100, 7⟩, []) := by
    rw [make_plan_client, hrun]
  exact ⟨h, (make_plan_client_frame ⟨100, 7⟩ (fun _ => 0) 50 21 ⟨100, 7⟩ [] h).1 ▸ rfl⟩

/-!
Fetcher (src/main.py lines 111-158).  Items of an interval are modelled as
their positions 0, ..., T-1 in the ranked (sort=updated) order, where
T = count d lo hi.  A listing query yields at most QUERY_LIMIT items
regardless of T (the API paging cap); ascending order yields the first
min T QUERY_LIMIT ranked items and descending order yields the last ones,
last first.
-/

/-- Items yielded by the ascending listing of stars:lo..hi (line 126-128). -/
def ascItems (d : ℤ → ℕ) (lo hi : ℤ) : List ℕ :=
  List.range (min (count d lo hi) QUERY_LIMIT)

/-- Items yielded by the descending listing of stars:lo..hi (line 142-143). -/
def descItems (d : ℤ → ℕ) (lo hi : ℤ) : List ℕ :=
  (List.range (count d lo hi)).reverse.take QUERY_LIMIT

/-- The portion of the descending listing appended by the enumerate loop at
lines 145-148: the loop breaks at the first index i with
i > totalCount - 1000, so it appends exactly the items at indices
0 .. totalCount - 1000. -/
def descAppend (d : ℤ → ℕ) (lo hi : ℤ) : List ℕ :=
  (descItems d lo hi).take ((count d lo hi : ℤ) - QUERY_LIMIT + 1).toNat

/-- Outcome of fetching one interval.  assertionRaised is the outcome the
code would have if the assert at line 144 escaped to the caller; retrying
means the retry loop is still running when the attempt budget runs out. -/
inductive FetchOutcome where
  | ok (repos : List ℕ)
  | assertionRaised
  | retrying
deriving DecidableEq, Repr

/-- The descending-pass retry loop (lines 139-157).  The assert at line 144
raises AssertionError, which is a subclass of Exception and is therefore
caught by the generic handler at line 154, whose continue re-enters the
loop: a violated assertion costs one attempt and is retried, and never
escapes, so assertionRaised is never produced. -/
def descPassLoop (d : ℤ → ℕ) (lo hi : ℤ) (repos : List ℕ) : ℕ → FetchOutcome
  | 0 => .retrying
  | fuel + 1 =>
    if count d lo hi ≤ 2 * QUERY_LIMIT then
      .ok (repos ++ descAppend d lo hi)
    else
      descPassLoop d lo hi repos fuel

theorem descPassLoop_succ (d : ℤ → ℕ) (lo hi : ℤ) (repos : List ℕ) (fuel : ℕ) :
    descPassLoop d lo hi repos (fuel + 1) =
      if count d lo hi ≤ 2 * QUERY_LIMIT then
        .ok (repos ++ descAppend d lo hi)
      else
        descPassLoop d lo hi repos fuel := rfl

/-- The body of fetch for one interval of the plan (lines 121-157), with the
ascending attempt failure-free: extend with the ascending listing, then, when
the observed totalCount exceeds QUERY_LIMIT, run the descending pass with the
given retry budget. -/
def fetchInterval (d : ℤ → ℕ) (lo hi : ℤ) (repos : List ℕ) (fuel : ℕ) : FetchOutcome :=
  if QUERY_LIMIT < count d lo hi then
    descPassLoop d lo hi (repos ++ ascItems d lo hi) fuel
  else
    .ok (repos ++ ascItems d lo hi)

/-- fetch (lines 111-158) over a whole plan. -/
def fetch (d : ℤ → ℕ) (plan : List (ℤ × ℤ)) (fuel : ℕ) : FetchOutcome :=
  plan.foldl
    (fun acc p =>
      match acc with
      | .ok repos => fetchInterval d p.1 p.2 repos fuel
      | e => e)
    (.ok [])

/-- C3 (corrected behaviour): on an interval whose observed totalCount
exceeds 2 * QUERY_LIMIT, the descending-pass assertion failure is caught by
the generic exception handler and retried, so fetch never completes the
interval and never surfaces the assertion to the caller: for every retry
budget the pass is still retrying. -/
theorem fetchInterval_coverage_gap_loops (d : ℤ → ℕ) (lo hi : ℤ) (repos : List ℕ)
    (h : 2 * QUERY_LIMIT < count d lo hi) :
    ∀ fuel, fetchInterval d lo hi repos fuel = .retrying := by
  have hql : QUERY_LIMIT < count d lo hi := by omega
  intro fuel
  rw [fetchInterval, if_pos hql]
  induction fuel with
  | zero => rfl
  | succ n ih => rw [descPassLoop_succ, if_neg (by omega)]; exact ih

/-- Table with a single score of 2500 items: a coverage gap at interval
(50, 50). -/
def dGap : ℤ → ℕ := fun s => if s = 50 then 2500 else 0

/-- Witness for C3 at dGap: count 2500 > 2000 and the pass is still
retrying after 5 attempts (and in particular no assertion is surfaced). -/
theorem fetchInterval_coverage_gap_loops_witness :
    2 * QUERY_LIMIT < count dGap 50 50 ∧
    fetchInterval dGap 50 50 [] 5 = .retrying ∧
    (FetchOutcome.retrying ≠ .assertionRaised) :=
  ⟨by decide, fetchInterval_coverage_gap_loops dGap 50 50 [] (by decide) 5, by decide⟩

/-- C6: on an interval whose observed totalCount is at most QUERY_LIMIT,
fetch contributes exactly totalCount items — the ascending listing — and the
descending pass is not entered (the outcome is ok for every retry budget,
including zero). -/
theorem fetchInterval_small (d : ℤ → ℕ) (lo hi : ℤ) (repos : List ℕ) (fuel : ℕ)
    (h : count d lo hi ≤ QUERY_LIMIT) :
    fetchInterval d lo hi repos fuel = .ok (repos ++ ascItems d lo hi) ∧
    (ascItems d lo hi).length = count d lo hi := by
  constructor
  · rw [fetchInterval, if_neg (not_lt.mpr h)]
  · rw [ascItems, List.length_range]
    exact min_eq_left h

/-- Table with 3 items at score 50. -/
def dSmall : ℤ → ℕ := fun s => if s = 50 then 3 else 0

/-- Witness for C6 at dSmall: the interval (50, 50) observes totalCount 3
and fetch contributes exactly its 3 items with no descending pass. -/
theorem fetchInterval_small_witness :
    count dSmall 50 50 ≤ QUERY_LIMIT ∧
    (fetchInterval dSmall 50 50 [] 0 = .ok ([] ++ ascItems dSmall 50 50) ∧
      (ascItems dSmall 50 50).length = count dSmall 50 50) :=
  ⟨by decide, fetchInterval_small dSmall 50 50 [] 0 (by decide)⟩

/-- C4 (amended): on an interval with QUERY_LIMIT < totalCount ≤
2 * QUERY_LIMIT, fetch contributes at least QUERY_LIMIT and at most
totalCount + 1 items: the ascending pass contributes the first QUERY_LIMIT
items and the descending pass appends the prefix of indices
0 .. totalCount - QUERY_LIMIT, of length min (totalCount - QUERY_LIMIT + 1)
QUERY_LIMIT — one more than totalCount - QUERY_LIMIT whenever
totalCount < 2 * QUERY_LIMIT. -/
theorem fetchInterval_stitch (d : ℤ → ℕ) (lo hi : ℤ) (repos : List ℕ) (fuel : ℕ)
    (h1 : QUERY_LIMIT < count d lo hi) (h2 : count d lo hi ≤ 2 * QUERY_LIMIT) :
    fetchInterval d lo hi repos (fuel + 1) =
      .ok (repos ++ ascItems d lo hi ++ descAppend d lo hi) ∧
    (ascItems d lo hi).length = QUERY_LIMIT ∧
    (descAppend d lo hi).length = min (count d lo hi - QUERY_LIMIT + 1) QUERY_LIMIT ∧
    QUERY_LIMIT ≤ (ascItems d lo hi).length + (descAppend d lo hi).length ∧
    (ascItems d lo hi).length + (descAppend d lo hi).length ≤ count d lo hi + 1 := by
  have hasc : (ascItems d lo hi).length = QUERY_LIMIT := by
    rw [ascItems, List.length_range]
    exact min_eq_right (le_of_lt h1)
  have hdi : (descItems d lo hi).length = QUERY_LIMIT := by
    rw [descItems, List.length_take, List.length_reverse, List.length_range]
    exact min_eq_left (le_of_lt h1)
  have htn : ((count d lo hi : ℤ) - QUERY_LIMIT + 1).toNat =
      count d lo hi - QUERY_LIMIT + 1 := by omega
  have hda : (descAppend d lo hi).length = min (count d lo hi - QUERY_LIMIT + 1) QUERY_LIMIT := by
    rw [descAppend, List.length_take, htn, hdi]
  refine ⟨?_, hasc, hda, ?_, ?_⟩
  · rw [fetchInterval, if_pos h1, descPassLoop_succ, if_pos h2]
  · rw [hasc]
    exact Nat.le_add_right _ _
  · rw [hasc, hda]
    have hmin : min (count d lo hi - QUERY_LIMIT + 1) QUERY_LIMIT ≤
        count d lo hi - QUERY_LIMIT + 1 := min_le_left _ _
    omega

/-- Table with 1500 items at score 50: the spec's uniform-1500 scenario
concentrated on one score value. -/
def dMid : ℤ → ℕ := fun s => if s = 50 then 1500 else 0

/-- Number of collected items of an ok outcome. -/
def okLength : FetchOutcome → Option ℕ
  | .ok repos => some repos.length
  | _ => none

theorem okLength_ok (repos : List ℕ) : okLength (.ok repos) = some repos.length := rfl

/-- Helper evaluation: fetching the interval (50, 50) against dMid
(totalCount 1500) collects 1000 ascending items plus the 501 descending
items at indices 0 .. 500. -/
theorem fetch_dMid_length :
    okLength (fetchInterval dMid 50 50 [] 1) = some 1501 := by
  have hc : count dMid 50 50 = 1500 := by decide
  have h1 : QUERY_LIMIT < count dMid 50 50 := by rw [hc]; norm_num [QUERY_LIMIT]
  have h2 : count dMid 50 50 ≤ 2 * QUERY_LIMIT := by rw [hc]; norm_num [QUERY_LIMIT]
  rw [show (1 : ℕ) = 0 + 1 from rfl, fetchInterval, if_pos h1, descPassLoop_succ,
    if_pos h2, okLength_ok, List.nil_append, List.length_append]
  have hasc : (ascItems dMid 50 50).length = 1000 := by
    rw [ascItems, List.length_range, hc]
    norm_num [QUERY_LIMIT]
  have hda : (descAppend dMid 50 50).length = 501 := by
    rw [descAppend, List.length_take, descItems, List.length_take,
      List.length_reverse, List.length_range, hc]
    decide
  rw [hasc, hda]

/-- C4 counterexample: on the interval (50, 50) against dMid the observed
totalCount is 1500, in (QUERY_LIMIT, 2 * QUERY_LIMIT], yet fetch contributes
1501 items — more than totalCount — because the descending loop breaks only
once the running index strictly exceeds totalCount - 1000, appending
totalCount - 999 items. -/
theorem fetchInterval_at_most_totalCount_cex :
    count dMid 50 50 = 1500 ∧
    okLength (fetchInterval dMid 50 50 [] 1) = some 1501 ∧
    ¬ ((1501 : ℕ) ≤ 1500) :=
  ⟨by decide, fetch_dMid_length, by decide⟩

/-- Witness for the amended C4 at dMid with one descending attempt. -/
theorem fetchInterval_stitch_witness :
    QUERY_LIMIT < count dMid 50 50 ∧ count dMid 50 50 ≤ 2 * QUERY_LIMIT ∧
    (fetchInterval dMid 50 50 [] (0 + 1) =
        .ok ([] ++ ascItems dMid 50 50 ++ descAppend dMid 50 50) ∧
      (ascItems dMid 50 50).length = QUERY_LIMIT ∧
      (descAppend dMid 50 50).length =
        min (count dMid 50 50 - QUERY_LIMIT + 1) QUERY_LIMIT ∧
      QUERY_LIMIT ≤ (ascItems dMid 50 50).length + (descAppend dMid 50 50).length ∧
      (ascItems dMid 50 50).length + (descAppend dMid 50 50).length ≤
        count dMid 50 50 + 1) :=
  ⟨by decide, by decide, fetchInterval_stitch dMid 50 50 [] 0 (by decide) (by decide)⟩

/-- The ascending-pass retry loop (lines 123-137) in the presence of
transient failures.  Each entry k of fails is a failed attempt whose lazy
listing yielded k items before raising: repos.extend(query) has already
appended those k items when the exception propagates, the handler sleeps and
the loop re-runs the query from scratch; the final attempt succeeds and
extends repos with the full listing. -/
def ascPassRetry (d : ℤ → ℕ) (lo hi : ℤ) (repos : List ℕ) : List ℕ → List ℕ
  | [] => repos ++ ascItems d lo hi
  | k :: rest => ascPassRetry d lo hi (repos ++ (ascItems d lo hi).take k) rest

/-- C7 counterexample: against dSmall (3 items), an attempt that fails after
yielding 1 item leaves that item in the collection — the collection at the
start of the retry is [0], not the pre-attempt value [] — so the completed
pass returns [0, 0, 1, 2] instead of [0, 1, 2]. -/
theorem fetch_retry_altered_state_cex :
    ascPassRetry dSmall 50 50 [] [1] = [0, 0, 1, 2] ∧
    ascPassRetry dSmall 50 50 [] [] = [0, 1, 2] ∧
    ([0, 0, 1, 2] : List ℕ) ≠ [0, 1, 2] :=
  ⟨by decide, by decide, by decide⟩

/-- C7 (amended): a failed listing attempt contributes exactly the items its
lazy sequence yielded before failing — the retry re-runs the query from
scratch but does not reset the result collection, so the completed pass
returns the prior collection, then the partial yields of each failed attempt
in order, then the full listing. -/
theorem ascPassRetry_eq (d : ℤ → ℕ) (lo hi : ℤ) :
    ∀ (fails : List ℕ) (repos : List ℕ),
      ascPassRetry d lo hi repos fails =
        repos ++ (fails.map (fun k => (ascItems d lo hi).take k)).flatten ++
          ascItems d lo hi := by
  intro fails
  induction fails with
  | nil => intro repos; simp [ascPassRetry]
  | cons k rest ih =>
    intro repos
    show ascPassRetry d lo hi (repos ++ (ascItems d lo hi).take k) rest =
      repos ++ ((k :: rest).map (fun j => (ascItems d lo hi).take j)).flatten ++
        ascItems d lo hi
    rw [ih, List.map_cons, List.flatten_cons]
    simp [List.append_assoc]

end GitHubStars
